import Mathlib

/-!
Verification development for the pynxtools-em concept-mapping engine.

The data model follows the repository documentation
(`src/pynxtools_em/configurations/README.md`: mapping-table layout, the five
rule shapes, and the template-path construction rules) together with the
development notebook in the repository that prototypes the rule-shape
discriminator `get_case`, the `MAP_TO_DTYPES` table and the pint unit
registry extensions (`ureg.define` of the nx_unitless / nx_dimensionless /
nx_any sentinels).  The rule-engine `apply`, the unit conversion and the
schema path resolver themselves are not shipped in the analysed tree, so
those operations are modelled from the specification (sections 4.1, 4.3 and
4.4); each such definition says so in its doc comment.

Numeric payloads are modelled as rationals: every conversion factor and every
concrete value appearing in the analysed scenarios is exactly representable,
so the rational model agrees with the float64 payloads of the code on them.
-/

namespace Pynx

/-- Physical-dimension categories used by the embedding.  `nodim` is the
dimension of pint quantities defined by `ureg.define(u = 1)`, which is how the
repository notebook introduces the three NeXus sentinel unit categories. -/
inductive Dim
  | nodim
  | length
  | voltage
  | time
  | mass
  | angle
deriving DecidableEq, Repr

/-- A unit of the registry: a display name, a physical dimension and a
rational conversion factor to the base unit of that dimension.  This models
a pint unit as far as the mapping engine observes it. -/
structure NxUnit where
  name : String
  dim : Dim
  factor : ℚ
deriving DecidableEq, Repr

/-- Sentinel unit category, from `ureg.define('nx_unitless = 1')` in the
repository notebook: dimensionless with factor 1. -/
def nx_unitless : NxUnit := ⟨"nx_unitless", Dim.nodim, 1⟩

/-- Sentinel unit category, from `ureg.define('nx_dimensionless = 1')`. -/
def nx_dimensionless : NxUnit := ⟨"nx_dimensionless", Dim.nodim, 1⟩

/-- Sentinel unit category, from `ureg.define('nx_any = 1')`. -/
def nx_any : NxUnit := ⟨"nx_any", Dim.nodim, 1⟩

/-- SI base length unit. -/
def meter : NxUnit := ⟨"meter", Dim.length, 1⟩

/-- Millimeter: factor 1/1000 to the base meter. -/
def millimeter : NxUnit := ⟨"millimeter", Dim.length, 1/1000⟩

/-- Volt, base unit of the voltage dimension. -/
def volt : NxUnit := ⟨"volt", Dim.voltage, 1⟩

/-- Kilovolt: factor 1000 to the base volt. -/
def kilovolt : NxUnit := ⟨"kilovolt", Dim.voltage, 1000⟩

/-- A unit is one of the three NeXus sentinel unit categories. -/
def IsSentinel (u : NxUnit) : Prop :=
  u = nx_unitless ∨ u = nx_dimensionless ∨ u = nx_any

instance (u : NxUnit) : Decidable (IsSentinel u) := by
  unfold IsSentinel; infer_instance

/-- Numpy dtype tags, the keys of the notebook table `MAP_TO_DTYPES`. -/
inductive Dtype
  | u1 | i1 | u2 | i2 | f2 | u4 | i4 | f4 | u8 | i8 | f8 | boolean
deriving DecidableEq, Repr

/-- Integer range of a dtype, `none` for the floating-point dtypes and the
boolean dtype whose checks are separate. -/
def intRange : Dtype → Option (Int × Int)
  | .u1 => some (0, 255)
  | .i1 => some (-128, 127)
  | .u2 => some (0, 65535)
  | .i2 => some (-32768, 32767)
  | .u4 => some (0, 4294967295)
  | .i4 => some (-2147483648, 2147483647)
  | .u8 => some (0, 18446744073709551615)
  | .i8 => some (-9223372036854775808, 9223372036854775807)
  | _ => none

/-- Modelled from the spec: `coerce_dtype` acceptance test (section 4.1).
Floating dtypes keep the exact rational payload; integer dtypes require an
in-range integer; booleans require 0 or 1. -/
def dtypeOk (d : Dtype) (q : ℚ) : Bool :=
  match d with
  | .boolean => q == 0 || q == 1
  | d =>
    match intRange d with
    | none => true
    | some lohi => q.den == 1 && decide (lohi.1 ≤ q.num ∧ q.num ≤ lohi.2)

/-- Errors the rule engine can raise, per spec section 4.1 and 4.3: unit
dimension mismatch, dtype overflow, and a demanded unit conversion on a value
that carries no source unit. -/
inductive ApplyError
  | incompatibleUnits (src trg : NxUnit)
  | dtypeOverflow (d : Dtype) (q : ℚ)
  | unitMissing
deriving DecidableEq, Repr

/-- Modelled from the spec: `convert(quantity, target_unit)` of the Unit
Normalizer (section 4.1).  Conversion succeeds only between units of the same
physical dimension and rescales by the ratio of conversion factors; otherwise
it fails with the incompatible-unit error. -/
def convQ (v : ℚ) (src trg : NxUnit) : Except ApplyError ℚ :=
  if src.dim = trg.dim then .ok (v * src.factor / trg.factor)
  else .error (.incompatibleUnits src trg)

/-- Modelled from the spec: `coerce_dtype` (section 4.1), on an optional
declared dtype as carried by the `map_to_dtype` table keywords. -/
def coerceQ (d : Option Dtype) (q : ℚ) : Except ApplyError ℚ :=
  match d with
  | none => .ok q
  | some d => if dtypeOk d q then .ok q else .error (.dtypeOverflow d q)

/-- A source or template value: string, boolean, numeric scalar or array,
optionally unit-tagged (a pint quantity). -/
inductive Value
  | str (s : String)
  | bool (b : Bool)
  | num (q : ℚ)
  | arr (qs : List ℚ)
  | quant (q : ℚ) (u : NxUnit)
  | quantArr (qs : List ℚ) (u : NxUnit)
deriving DecidableEq, Repr

/-- SourceRecord: the flat key-value mapping produced by a format adapter. -/
abbrev SourceRecord := List (String × Value)

/-- OutputTemplate: mapping from resolved template paths to final values. -/
abbrev Template := List (String × Value)

/-- Lookup in a SourceRecord (first binding of the key). -/
def slookup : SourceRecord → String → Option Value
  | [], _ => none
  | kv :: s, k => if kv.1 == k then some kv.2 else slookup s k

/-- Lookup in an OutputTemplate (first binding of the key). -/
def tlookup : Template → String → Option Value
  | [], _ => none
  | kv :: t, k => if kv.1 == k then some kv.2 else tlookup t k

/-- Keys currently bound in a template. -/
def tkeys (t : Template) : List String := t.map (fun kv => kv.1)

/-- Dictionary write: rebinds the key in place if it is already present,
appends a new binding otherwise (the behaviour of a Python dict
assignment). -/
def tput : Template → String → Value → Template
  | [], k, v => [(k, v)]
  | kv :: t, k, v => if kv.1 == k then (k, v) :: t else kv :: tput t k v

/-- Sequential dictionary writes, left to right. -/
def tputs : Template → List (String × Value) → Template
  | t, [] => t
  | t, kv :: rest => tputs (tput t kv.1 kv.2) rest

/-- Collect a list of optional values, failing on the first `none`. -/
def olist {α : Type} : List (Option α) → Option (List α)
  | [] => some []
  | none :: _ => none
  | some a :: rest => (olist rest).map (fun l => a :: l)

/-- Collect a list of fallible results, stopping at the first error. -/
def elist {α : Type} : List (Except ApplyError α) → Except ApplyError (List α)
  | [] => .ok []
  | .error e :: _ => .error e
  | .ok a :: rest => (elist rest).map (fun l => a :: l)

/-- Source-path component of a rule: a single path, or an ordered list of
paths signalling an element-wise join. -/
inductive SrcSel
  | one (p : String)
  | many (ps : List String)
deriving DecidableEq, Repr

/-- The five mapping-rule shapes of `configurations/README.md`: a bare
string (case one), (trg, src) (case two), (trg, trg_unit, src) (case three),
(trg, src, src_unit) (case four), (trg, trg_unit, src, src_unit) (case
five); in cases two to five the source component may be a list. -/
inductive MappingRule
  | caseOne (symbol : String)
  | caseTwo (trg : String) (src : SrcSel)
  | caseThree (trg : String) (trgUnit : NxUnit) (src : SrcSel)
  | caseFour (trg : String) (src : SrcSel) (srcUnit : NxUnit)
  | caseFive (trg : String) (trgUnit : NxUnit) (src : SrcSel) (srcUnit : NxUnit)
deriving DecidableEq, Repr

/-- One entry of a mapping table: a `use` literal (target symbol plus value,
no source involved) or a `map` / `map_to_dtype` / `map_to_dtype_and_join`
rule with its optional declared dtype. -/
inductive TableEntry
  | useEntry (sym : String) (value : Value)
  | mapEntry (dtype : Option Dtype) (rule : MappingRule)
deriving DecidableEq, Repr

/-- MappingTable: shared target and source prefixes plus the rule entries in
table order, following the dictionary layout of `configurations/README.md`. -/
structure MappingTable where
  prefix_trg : String
  prefix_src : String
  entries : List TableEntry
deriving DecidableEq, Repr

/-- Target-side symbol of a rule. -/
def ruleTrg : MappingRule → String
  | .caseOne s => s
  | .caseTwo t _ => t
  | .caseThree t _ _ => t
  | .caseFour t _ _ => t
  | .caseFive t _ _ _ => t

/-- Source selector of a rule; for a bare-string rule the source symbol is
the target symbol itself. -/
def ruleSrcSel : MappingRule → SrcSel
  | .caseOne s => .one s
  | .caseTwo _ s => s
  | .caseThree _ _ s => s
  | .caseFour _ s _ => s
  | .caseFive _ _ s _ => s

/-- Declared target unit of a rule, when present. -/
def ruleTrgUnit : MappingRule → Option NxUnit
  | .caseThree _ u _ => some u
  | .caseFive _ u _ _ => some u
  | _ => none

/-- Declared source unit of a rule, when present. -/
def ruleSrcUnit : MappingRule → Option NxUnit
  | .caseFour _ _ u => some u
  | .caseFive _ _ _ u => some u
  | _ => none

/-- Template path of a `map` rule: prefix_trg concatenated with the target
symbol without separator, per `configurations/README.md` line 72. -/
def resolveTrg (tbl : MappingTable) (r : MappingRule) : String :=
  tbl.prefix_trg ++ ruleTrg r

/-- Template path of a `use` literal: prefix_trg, a slash, then the symbol,
per `configurations/README.md` line 71. -/
def resolveUse (tbl : MappingTable) (sym : String) : String :=
  tbl.prefix_trg ++ "/" ++ sym

/-- Resolved source paths of a rule: prefix_src concatenated with each source
symbol, per `configurations/README.md` line 73. -/
def resolveSrcPaths (tbl : MappingTable) (r : MappingRule) : List String :=
  (match ruleSrcSel r with
   | .one p => [p]
   | .many ps => ps).map (fun p => tbl.prefix_src ++ p)

/-- Sibling attribute path carrying the unit of a written value. -/
def unitsPath (p : String) : String := p ++ "/@units"

/-- Unit name to write alongside a converted value: the declared target unit
if the rule has one, else the value's own carried unit, else the declared
source unit. -/
def unitNameFor (tu su vu : Option NxUnit) : Option String :=
  match tu with
  | some u => some u.name
  | none => (vu <|> su).map (fun u => u.name)

/-- Modelled from the spec: magnitude processing of one scalar (section 4.3
step 5).  When the rule declares a target unit the value is converted from
its effective source unit (the value's own unit, else the rule's declared
source unit; failing fatally when neither exists), then dtype-coerced. -/
def magFor (d : Option Dtype) (tu su : Option NxUnit) (q : ℚ)
    (vu : Option NxUnit) : Except ApplyError ℚ :=
  match tu with
  | some t =>
    match vu <|> su with
    | some s => convQ q s t >>= coerceQ d
    | none => .error .unitMissing
  | none => coerceQ d q

/-- Modelled from the spec: processing of the single looked-up value of a
non-join rule (section 4.3 steps 5 and 6), returning the value to write and
the unit name for the sibling attribute entry. -/
def processSingle (r : MappingRule) (d : Option Dtype) (v : Value) :
    Except ApplyError (Value × Option String) :=
  let tu := ruleTrgUnit r
  let su := ruleSrcUnit r
  match v with
  | .str s =>
    match tu, su with
    | none, none => .ok (.str s, none)
    | _, _ => .error .unitMissing
  | .bool b =>
    match tu, su with
    | none, none => .ok (.bool b, none)
    | _, _ => .error .unitMissing
  | .num q => (magFor d tu su q none).map (fun q2 => (.num q2, unitNameFor tu su none))
  | .quant q u =>
    (magFor d tu su q (some u)).map (fun q2 => (.num q2, unitNameFor tu su (some u)))
  | .arr qs =>
    (elist (qs.map (fun q => magFor d tu su q none))).map
      (fun qs2 => (.arr qs2, unitNameFor tu su none))
  | .quantArr qs u =>
    (elist (qs.map (fun q => magFor d tu su q (some u)))).map
      (fun qs2 => (.arr qs2, unitNameFor tu su (some u)))

/-- Modelled from the spec: magnitude of one element of a join (section 4.3
step 5); join elements must be numeric scalars. -/
def elemMag (d : Option Dtype) (tu su : Option NxUnit) : Value → Except ApplyError ℚ
  | .num q => magFor d tu su q none
  | .quant q u => magFor d tu su q (some u)
  | _ => .error .unitMissing

/-- Structured warning recorded when a rule's source data is absent: the
resolved target path and the resolved source paths that were missing. -/
inductive Warning
  | missingSource (targetPath : String) (missing : List String)
deriving DecidableEq, Repr

/-- Writes produced for one resolved target path: the value entry, plus the
sibling units attribute entry when a unit name is attached. -/
def writesOf (trg : String) (v : Value) (un : Option String) :
    List (String × Value) :=
  match un with
  | some n => [(trg, v), (unitsPath trg, .str n)]
  | none => [(trg, v)]

/-- Modelled from the spec: interpretation of one table entry against a
source record (section 4.3).  Returns the template writes and the warnings
of this entry, or a fatal error.  A rule whose resolved source data is
absent produces no writes and exactly one missing-source warning. -/
def entryWrites (tbl : MappingTable) (source : SourceRecord) :
    TableEntry → Except ApplyError (List (String × Value) × List Warning)
  | .useEntry sym v =>
    let p := resolveUse tbl sym
    match v with
    | .quant q u => .ok (writesOf p (.num q) (some u.name), [])
    | .quantArr qs u => .ok (writesOf p (.arr qs) (some u.name), [])
    | w => .ok (writesOf p w none, [])
  | .mapEntry d r =>
    let trg := resolveTrg tbl r
    match ruleSrcSel r with
    | .one sp =>
      let p := tbl.prefix_src ++ sp
      match slookup source p with
      | none => .ok ([], [.missingSource trg [p]])
      | some v => (processSingle r d v).map (fun pr => (writesOf trg pr.1 pr.2, []))
    | .many sps =>
      let ps := sps.map (fun sp => tbl.prefix_src ++ sp)
      match olist (ps.map (slookup source)) with
      | none =>
        .ok ([], [.missingSource trg (ps.filter (fun p => (slookup source p).isNone))])
      | some vs =>
        (elist (vs.map (elemMag d (ruleTrgUnit r) (ruleSrcUnit r)))).map
          (fun qs =>
            (writesOf trg (.arr qs) (unitNameFor (ruleTrgUnit r) (ruleSrcUnit r) none),
             []))

/-- State threaded through one conversion run: the output template and the
accumulated recoverable warnings. -/
structure ApplyState where
  template : Template
  warnings : List Warning
deriving DecidableEq, Repr

/-- Modelled from the spec: application of one table entry to the running
state (section 4.3): writes extend the template, warnings accumulate. -/
def applyEntry (tbl : MappingTable) (source : SourceRecord) (st : ApplyState)
    (e : TableEntry) : Except ApplyError ApplyState :=
  (entryWrites tbl source e).map
    (fun pr => ⟨tputs st.template pr.1, st.warnings ++ pr.2⟩)

/-- Modelled from the spec: sequential application of the remaining entries
(section 4.3); a fatal error aborts, warnings never do. -/
def applyEntries (tbl : MappingTable) (source : SourceRecord) :
    List TableEntry → ApplyState → Except ApplyError ApplyState
  | [], st => .ok st
  | e :: rest, st =>
    match applyEntry tbl source st e with
    | .error err => .error err
    | .ok st2 => applyEntries tbl source rest st2

/-- Modelled from the spec: `apply(table, source, template)` of the Rule
Engine (section 4.3), evaluating the table's entries in order against the
source record, extending the given template. -/
def applyTable (tbl : MappingTable) (source : SourceRecord) (t : Template) :
    Except ApplyError ApplyState :=
  applyEntries tbl source tbl.entries ⟨t, []⟩

/-- A Python value as far as the rule-shape discriminator `get_case` of the
repository notebook inspects it: strings, pint units, lists, tuples, and any
other scalar (represented here by integers). -/
inductive PyVal
  | str (s : String)
  | unit (u : NxUnit)
  | list (vs : List PyVal)
  | int (n : Int)
  | tuple (vs : List PyVal)

/-- Truth value of `isinstance(v, str)`. -/
def isStr : PyVal → Bool
  | .str _ => true
  | _ => false

/-- Truth value of `isinstance(v, pint.Unit)`. -/
def isUnit : PyVal → Bool
  | .unit _ => true
  | _ => false

/-- Truth value of `isinstance(v, list)`. -/
def isList : PyVal → Bool
  | .list _ => true
  | _ => false

/-- Truthiness of the bare expression `(v, pint.Unit)` appearing as an `if`
condition in the notebook's `get_case`: a two-element tuple is a non-empty
sequence, hence always truthy in Python, whatever `v` is. -/
def truthyPair (_ : PyVal) : Bool := true

/-- Rule-shape discriminator `get_case` from the repository notebook
(`src/unnamed/part_004`, cell `1bb7679f`), translated branch by branch:
length-4 tuples check positions 0, 1, 3 with `isinstance` and discriminate
position 2; length-3 tuples whose head is a string check position 1 with
`isinstance`, but in the `str` and `list` branches position 2 is only tested
by the always-truthy bare tuple `(arg[2], pint.Unit)`; length-2 tuples check
both positions; a bare string is case one; everything else yields `None`. -/
def get_case : PyVal → Option String
  | .str _ => some "case_one"
  | .tuple [a0, a1, a2, a3] =>
    if isStr a0 && isUnit a1 && isUnit a3 then
      if isStr a2 then some "case_five_str"
      else if isList a2 then some "case_five_list"
      else none
    else none
  | .tuple [a0, a1, a2] =>
    if isStr a0 then
      if isStr a1 then
        if truthyPair a2 then some "case_four_str" else none
      else if isList a1 then
        if truthyPair a2 then some "case_four_list" else none
      else if isUnit a1 then
        if isStr a2 then some "case_three_str"
        else if isList a2 then some "case_three_list"
        else none
      else none
    else none
  | .tuple [a0, a1] =>
    if isStr a0 then
      if isStr a1 then some "case_two_str"
      else if isList a1 then some "case_two_list"
      else none
    else none
  | _ => none

/-- One node of the concept-schema tree: a concrete group/field carrying its
name, type, units and children, or a base-class indirection delegating
further resolution to a separately defined class root. -/
inductive SchemaNode
  | group (name ntype units : String) (children : List SchemaNode)
  | baseRef (name : String) (baseClass : String)

/-- Environment of separately defined base classes: class name to the type,
units and children of that class's root. -/
abbrev SchemaEnv := List (String × (String × String × List SchemaNode))

/-- Lookup of a base class definition by name. -/
def lookupClass (env : SchemaEnv) (b : String) : Option (String × String × List SchemaNode) :=
  (env.find? (fun kv => kv.1 == b)).map (fun kv => kv.2)

/-- Name of a schema node. -/
def nodeName : SchemaNode → String
  | .group n _ _ _ => n
  | .baseRef n _ => n

/-- Child of a node with the given segment name. -/
def childNamed (cs : List SchemaNode) (s : String) : Option SchemaNode :=
  cs.find? (fun c => nodeName c == s)

/-- Modelled from the spec: context switch of the Schema Path Resolver
(section 4.4).  A concrete group stands for itself; a base-class indirection
dereferences to the root of the separately defined base class, which becomes
the context for the remaining path segments. -/
def deref (env : SchemaEnv) : SchemaNode → Option SchemaNode
  | n@(.group _ _ _ _) => some n
  | .baseRef _ b =>
    (lookupClass env b).map (fun gd => .group b gd.1 gd.2.1 gd.2.2)

/-- Modelled from the spec: the Schema Path Resolver state machine (section
4.4), consuming path segments left to right.  At each step the current node
is dereferenced (switching context to a base class's root when the node is
an indirection) and the next segment is looked up among the children of that
context; the remaining, not yet consumed, segments continue from there. -/
def resolveFrom (env : SchemaEnv) : List String → SchemaNode → Option SchemaNode
  | [], n => some n
  | s :: rest, n =>
    (deref env n).bind (fun m =>
      match m with
      | .group _ _ _ cs => (childNamed cs s).bind (fun c => resolveFrom env rest c)
      | _ => none)

/-- Resolved source paths of a rule that are absent from the source record. -/
def missingOf (tbl : MappingTable) (source : SourceRecord) (r : MappingRule) :
    List String :=
  (resolveSrcPaths tbl r).filter (fun p => (slookup source p).isNone)

/-- Last binding of a key in a write list, later writes taking precedence. -/
def lastBind : List (String × Value) → String → Option Value
  | [], _ => none
  | kv :: rest, k =>
    match lastBind rest k with
    | some v => some v
    | none => if kv.1 == k then some kv.2 else none

/-- Statement of the append-only claim on the output template: an `apply`
run never rebinds a template path that was already present (and hence also
never removes one). -/
def appendOnlyClaim : Prop :=
  ∀ (tbl : MappingTable) (source : SourceRecord) (t : Template)
    (st : ApplyState) (k : String),
    applyTable tbl source t = .ok st → k ∈ tkeys t →
    tlookup st.template k = tlookup t k

/-- Concrete scenario 1 table: prefix_trg "/a/b", prefix_src "/x/", one plain
`map` tuple ("v", "val"). -/
def tblScenario1 : MappingTable :=
  ⟨"/a/b", "/x/", [.mapEntry none (.caseTwo "v" (.one "val"))]⟩

/-- Concrete scenario 1 source record. -/
def srcScenario1 : SourceRecord := [("/x/val", .num 3)]

/-- Concrete scenario 2 table: one `map_to_float64_and_join` tuple
("position", meter, ["x","y","z"], millimeter). -/
def tblScenario2 : MappingTable :=
  ⟨"/entry/", "/s/",
   [.mapEntry (some .f8) (.caseFive "position" meter (.many ["x", "y", "z"]) millimeter)]⟩

/-- Concrete scenario 2 source record: x, y, z given in millimeters. -/
def srcScenario2 : SourceRecord :=
  [("/s/x", .num 1000), ("/s/y", .num 2000), ("/s/z", .num 0)]

/-- Table with two rules resolving to the same target path, the second
binding a different value: exercises the overwrite semantics. -/
def tblOverwrite : MappingTable :=
  ⟨"/p", "", [.useEntry "design" (.str "a"), .useEntry "design" (.str "b")]⟩

/-- Table with a single rule targeting a path that is already bound in the
starting template below. -/
def tblRebind : MappingTable := ⟨"/p", "", [.useEntry "design" (.str "b")]⟩

/-- Starting template already binding the path the table above targets. -/
def tmplRebind : Template := [("/p/design", .str "a")]

/-- Join table for the order-preservation witness. -/
def tblJoinW : MappingTable :=
  ⟨"/t/", "/s/", [.mapEntry none (.caseTwo "pos" (.many ["x", "y"]))]⟩

/-- Source record for the order-preservation witness (keys inserted in the
reverse of the declared join order). -/
def srcJoinW : SourceRecord := [("/s/y", .num 2), ("/s/x", .num 1)]

/-- The same mapping as `srcJoinW` with the opposite key insertion order. -/
def srcJoinW2 : SourceRecord := [("/s/x", .num 1), ("/s/y", .num 2)]

/-- Looked-up source values of the scenario-2 join, per declared symbol. -/
def vJoinC6 (p : String) : Value :=
  if p = "x" then .num 1000 else if p = "y" then .num 2000 else .num 0

/-- Converted magnitudes of the scenario-2 join, per declared symbol. -/
def mJoinC6 (p : String) : ℚ :=
  if p = "x" then 1 else if p = "y" then 2 else 0

/-- Schema fixture for concrete scenario 3: the data field inside the
indirected base class. -/
def dataNodeC3 : SchemaNode := .group "data" "NX_NUMBER" "NX_UNITLESS" []

/-- Schema fixture: the map group of the base class. -/
def mapNodeC3 : SchemaNode := .group "map" "NXdata" "" [dataNodeC3]

/-- Schema fixture: the ipfID group of the base class. -/
def ipfNodeC3 : SchemaNode := .group "ipfID" "NXms_ipf" "" [mapNodeC3]

/-- Schema fixture: the phaseID group, root child of the base class. -/
def phaseNodeC3 : SchemaNode := .group "phaseID" "NXcrystal_structure" "" [ipfNodeC3]

/-- Schema environment: the separately defined base class `NXms_ebsd` whose
root owns the phaseID subtree. -/
def envC3 : SchemaEnv := [("NXms_ebsd", ("NXms_ebsd", "", [phaseNodeC3]))]

/-- Root of the dereferenced base class, the context for the remaining
segments after the indirection. -/
def ebsdRootC3 : SchemaNode := .group "NXms_ebsd" "NXms_ebsd" "" [phaseNodeC3]

/-- Application-schema tree: ENTRY/ROI/ebsd with `indexing` delegating to the
base class `NXms_ebsd`. -/
def rootC3 : SchemaNode :=
  .group "" "NXroot" ""
    [.group "ENTRY" "NXentry" ""
      [.group "ROI" "NXroi" ""
        [.group "ebsd" "NXprocess" "" [.baseRef "indexing" "NXms_ebsd"]]]]

/-- Path segments up to and including the base-class indirection. -/
def preC3 : List String := ["ENTRY", "ROI", "ebsd", "indexing"]

/-- Path segments to be consumed from the base class's root. -/
def postC3 : List String := ["phaseID", "ipfID", "map", "data"]

instance {α β : Type} [DecidableEq α] [DecidableEq β] : DecidableEq (Except α β) :=
  fun a b =>
    match a, b with
    | .ok x, .ok y =>
      if h : x = y then .isTrue (by rw [h]) else .isFalse (fun hc => h (Except.ok.inj hc))
    | .error x, .error y =>
      if h : x = y then .isTrue (by rw [h]) else .isFalse (fun hc => h (Except.error.inj hc))
    | .ok _, .error _ => .isFalse (fun hc => Except.noConfusion hc)
    | .error _, .ok _ => .isFalse (fun hc => Except.noConfusion hc)

theorem tlookup_tput_self (t : Template) (k : String) (v : Value) :
    tlookup (tput t k v) k = some v := by
  induction t with
  | nil => simp [tput, tlookup]
  | cons kv t ih =>
    by_cases h : kv.1 = k
    · simp [tput, tlookup, h]
    · simp [tput, tlookup, h, ih]

theorem tlookup_tput_ne (t : Template) (k k2 : String) (v : Value)
    (h : k ≠ k2) : tlookup (tput t k v) k2 = tlookup t k2 := by
  induction t with
  | nil => simp [tput, tlookup, h]
  | cons kv t ih =>
    by_cases hk : kv.1 = k
    · simp [tput, tlookup, hk, h]
    · by_cases hk2 : kv.1 = k2
      · simp [tput, tlookup, hk, hk2, Ne.symm h]
      · simp [tput, tlookup, hk, hk2, ih]

theorem mem_tkeys_tput (t : Template) (k k2 : String) (v : Value)
    (h : k2 ∈ tkeys t) : k2 ∈ tkeys (tput t k v) := by
  induction t with
  | nil => simp [tkeys] at h
  | cons kv t ih =>
    simp only [tkeys, List.map, List.mem_cons] at h
    by_cases hk : kv.1 = k
    · rcases h with h | h
      · simp [tput, tkeys, hk, h]
      · simp [tput, tkeys, hk]
        right
        simpa [tkeys] using h
    · rcases h with h | h
      · simp [tput, tkeys, hk, h]
      · simp only [tkeys, tput, hk] at ih ⊢
        simp only [beq_iff_eq, hk, if_false, List.map, List.mem_cons]
        right
        exact ih h

theorem lastBind_eq_none_of_not_mem (ws : List (String × Value)) (k : String)
    (h : k ∉ ws.map (fun kv => kv.1)) : lastBind ws k = none := by
  induction ws with
  | nil => rfl
  | cons kv ws ih =>
    simp only [List.map, List.mem_cons] at h
    push_neg at h
    have hne : kv.1 ≠ k := fun he => h.1 he.symm
    simp [lastBind, ih h.2, hne]

theorem tlookup_tputs (t : Template) (ws : List (String × Value)) (k : String) :
    tlookup (tputs t ws) k =
      match lastBind ws k with
      | some v => some v
      | none => tlookup t k := by
  induction ws generalizing t with
  | nil => simp [tputs, lastBind]
  | cons kv ws ih =>
    simp only [tputs, lastBind, ih]
    cases lastBind ws k with
    | some v => rfl
    | none =>
      by_cases h : kv.1 = k
      · subst h
        simp [tlookup_tput_self]
      · simp [h, tlookup_tput_ne _ _ _ _ h]

theorem tlookup_tputs_not_mem (t : Template) (ws : List (String × Value))
    (k : String) (h : k ∉ ws.map (fun kv => kv.1)) :
    tlookup (tputs t ws) k = tlookup t k := by
  rw [tlookup_tputs, lastBind_eq_none_of_not_mem ws k h]

theorem mem_tkeys_tputs (t : Template) (ws : List (String × Value))
    (k2 : String) (h : k2 ∈ tkeys t) : k2 ∈ tkeys (tputs t ws) := by
  induction ws generalizing t with
  | nil => exact h
  | cons kv ws ih => exact ih _ (mem_tkeys_tput _ _ _ _ h)

theorem applyEntries_append (tbl : MappingTable) (source : SourceRecord)
    (l1 l2 : List TableEntry) (st : ApplyState) :
    applyEntries tbl source (l1 ++ l2) st =
      match applyEntries tbl source l1 st with
      | .ok st1 => applyEntries tbl source l2 st1
      | .error e => .error e := by
  induction l1 generalizing st with
  | nil => simp [applyEntries]
  | cons e l1 ih =>
    simp only [List.cons_append, applyEntries]
    cases applyEntry tbl source st e with
    | error err => rfl
    | ok st2 => exact ih st2

theorem applyEntry_ok (tbl : MappingTable) (source : SourceRecord)
    (st st2 : ApplyState) (e : TableEntry)
    (h : applyEntry tbl source st e = .ok st2) :
    ∃ ws warns, entryWrites tbl source e = .ok (ws, warns) ∧
      st2 = ⟨tputs st.template ws, st.warnings ++ warns⟩ := by
  unfold applyEntry at h
  cases hw : entryWrites tbl source e with
  | error err => rw [hw] at h; exact absurd h (by simp [Except.map])
  | ok pr =>
    rw [hw] at h
    simp only [Except.map, Except.ok.injEq] at h
    exact ⟨pr.1, pr.2, rfl, h.symm⟩

theorem applyEntries_keys_mono (tbl : MappingTable) (source : SourceRecord)
    (l : List TableEntry) (st st2 : ApplyState) (k : String)
    (happ : applyEntries tbl source l st = .ok st2)
    (h : k ∈ tkeys st.template) : k ∈ tkeys st2.template := by
  induction l generalizing st with
  | nil =>
    simp only [applyEntries, Except.ok.injEq] at happ
    exact happ ▸ h
  | cons e l ih =>
    simp only [applyEntries] at happ
    cases he : applyEntry tbl source st e with
    | error err => rw [he] at happ; exact absurd happ (by simp)
    | ok st1 =>
      rw [he] at happ
      obtain ⟨ws, warns, _, hst1⟩ := applyEntry_ok tbl source st st1 e he
      exact ih st1 happ (hst1 ▸ mem_tkeys_tputs _ _ _ h)

theorem applyEntries_preserves (tbl : MappingTable) (source : SourceRecord)
    (l : List TableEntry) (st st2 : ApplyState) (k : String)
    (hl : ∀ e ∈ l, ∀ ws warns, entryWrites tbl source e = .ok (ws, warns) →
      k ∉ ws.map (fun kv => kv.1))
    (happ : applyEntries tbl source l st = .ok st2) :
    tlookup st2.template k = tlookup st.template k := by
  induction l generalizing st with
  | nil =>
    simp only [applyEntries, Except.ok.injEq] at happ
    rw [happ]
  | cons e l ih =>
    simp only [applyEntries] at happ
    cases he : applyEntry tbl source st e with
    | error err => rw [he] at happ; exact absurd happ (by simp)
    | ok st1 =>
      rw [he] at happ
      obtain ⟨ws, warns, hw, hst1⟩ := applyEntry_ok tbl source st st1 e he
      have hk := hl e (by simp) ws warns hw
      have := ih st1 (fun e2 he2 => hl e2 (by simp [he2])) happ
      rw [this, hst1]
      exact tlookup_tputs_not_mem _ _ _ hk

theorem olist_eq_none {α : Type} (l : List (Option α)) (h : none ∈ l) :
    olist l = none := by
  induction l with
  | nil => simp at h
  | cons a l ih =>
    cases a with
    | none => rfl
    | some x =>
      rcases List.mem_cons.mp h with h1 | h1
      · exact absurd h1 (by simp)
      · simp [olist, ih h1]

theorem olist_map_some {α β : Type} (l : List α) (f : α → Option β)
    (g : α → β) (h : ∀ x ∈ l, f x = some (g x)) :
    olist (l.map f) = some (l.map g) := by
  induction l with
  | nil => rfl
  | cons a l ih =>
    have ha := h a (by simp)
    simp only [List.map, ha, olist, ih (fun x hx => h x (by simp [hx]))]
    rfl

theorem elist_map_ok {α : Type} (l : List α) (f : α → Except ApplyError ℚ)
    (g : α → ℚ) (h : ∀ x ∈ l, f x = .ok (g x)) :
    elist (l.map f) = .ok (l.map g) := by
  induction l with
  | nil => rfl
  | cons a l ih =>
    have ha := h a (by simp)
    simp only [List.map, ha, elist, ih (fun x hx => h x (by simp [hx]))]
    rfl

theorem except_ok_bind {α β : Type} (a : α) (f : α → Except ApplyError β) :
    (Except.ok a >>= f) = f a := rfl

theorem entryWrites_congr (tbl : MappingTable) (s1 s2 : SourceRecord)
    (e : TableEntry) (h : ∀ p, slookup s1 p = slookup s2 p) :
    entryWrites tbl s1 e = entryWrites tbl s2 e := by
  have hf : slookup s1 = slookup s2 := funext h
  cases e with
  | useEntry sym v => rfl
  | mapEntry d r => simp only [entryWrites, hf]

theorem applyTable_congr (tbl : MappingTable) (s1 s2 : SourceRecord)
    (t : Template) (h : ∀ p, slookup s1 p = slookup s2 p) :
    applyTable tbl s1 t = applyTable tbl s2 t := by
  unfold applyTable
  generalize tbl.entries = l
  generalize (⟨t, []⟩ : ApplyState) = st
  induction l generalizing st with
  | nil => rfl
  | cons e l ih =>
    simp only [applyEntries, applyEntry, entryWrites_congr tbl s1 s2 e h]
    cases entryWrites tbl s2 e with
    | error err => rfl
    | ok pr => exact ih _

theorem applyEntries_append_ok (tbl : MappingTable) (source : SourceRecord)
    (l1 l2 : List TableEntry) (st st1 : ApplyState)
    (h : applyEntries tbl source l1 st = .ok st1) :
    applyEntries tbl source (l1 ++ l2) st = applyEntries tbl source l2 st1 := by
  rw [applyEntries_append, h]

theorem applyEntries_append_error (tbl : MappingTable) (source : SourceRecord)
    (l1 l2 : List TableEntry) (st : ApplyState) (err : ApplyError)
    (h : applyEntries tbl source l1 st = .error err) :
    applyEntries tbl source (l1 ++ l2) st = .error err := by
  rw [applyEntries_append, h]

theorem applyEntries_cons_ok (tbl : MappingTable) (source : SourceRecord)
    (e : TableEntry) (rest : List TableEntry) (st st1 : ApplyState)
    (h : applyEntry tbl source st e = .ok st1) :
    applyEntries tbl source (e :: rest) st = applyEntries tbl source rest st1 := by
  simp only [applyEntries, h]

theorem resolveFrom_append (env : SchemaEnv) (l1 l2 : List String)
    (n : SchemaNode) :
    resolveFrom env (l1 ++ l2) n =
      (resolveFrom env l1 n).bind (fun m => resolveFrom env l2 m) := by
  induction l1 generalizing n with
  | nil => simp [resolveFrom]
  | cons s l1 ih =>
    simp only [List.cons_append, resolveFrom]
    cases hd : deref env n with
    | none => simp
    | some m =>
      cases m with
      | baseRef nm b => simp
      | group nm ty un cs =>
        cases hc : childNamed cs s with
        | none => simp [hc]
        | some c => simp [hc, ih c]

/-- C4: applying the table with prefix_trg "/a/b", prefix_src "/x/" and the
single map tuple ("v", "val") to the source binding "/x/val" to 3.0 yields
exactly the template binding "/a/bv" to 3.0: the target suffix is
concatenated without a separator, the source key is prefix_src ++ "val",
and no "@units" sibling entry is written. -/
theorem C4_scenario1 :
    applyTable tblScenario1 srcScenario1 [] =
      .ok ⟨[("/a/bv", Value.num 3)], []⟩ := rfl

/-- C5: applying the table with the map_to_float64_and_join tuple
("position", meter, ["x","y","z"], millimeter) to a source holding x, y, z
as 1000.0, 2000.0, 0.0 millimeters writes the position array [1.0, 2.0,
0.0] in meters, each scalar converted before concatenation, with the meter
unit attribute alongside. -/
theorem C5_scenario2 :
    applyTable tblScenario2 srcScenario2 [] =
      .ok ⟨[("/entry/position", Value.arr [1, 2, 0]),
            ("/entry/position/@units", Value.str "meter")], []⟩ := by
  simp [applyTable, tblScenario2, srcScenario2, applyEntries, applyEntry,
    entryWrites, ruleSrcSel, ruleTrgUnit, ruleSrcUnit, resolveTrg, ruleTrg,
    slookup, olist, elist, elemMag, magFor, convQ, coerceQ, unitNameFor,
    writesOf, tputs, tput, unitsPath, meter, millimeter, Except.map]
  norm_num

/-- C8: evaluation of the rule-shape discriminator at the malformed entry
("a", "b", 42), a 3-tuple whose third element is neither a unit nor
anything else case four declares: `get_case` accepts it as "case_four_str"
instead of rejecting it, so a malformed table entry is not detected at
load time. -/
theorem C8_shape_validation_gap :
    get_case (PyVal.tuple [PyVal.str "a", PyVal.str "b", PyVal.int 42]) =
      some "case_four_str" := rfl

/-- C10: `get_case` classifies every 3-tuple whose first two elements are
strings as "case_four_str" regardless of its third element, because the
third-element check in the source is the always-truthy bare tuple
expression rather than an isinstance test. -/
theorem C10_case_four_unit_unchecked (s1 s2 : String) (v : PyVal) :
    get_case (PyVal.tuple [PyVal.str s1, PyVal.str s2, v]) =
      some "case_four_str" := rfl

/-- C3: when resolving a path that crosses one base-class indirection, the
resolver continues with the remaining, not yet consumed, segments from the
base class's root: the result on the full path equals the result of
resolving the pre-indirection segments (reaching the indirection node) and
then the post-indirection segments against the dereferenced base-class
root. -/
theorem C3_indirection_resets_root (env : SchemaEnv) (root : SchemaNode)
    (pre : List String) (s : String) (rest : List String)
    (nm b t u : String) (cs : List SchemaNode)
    (hpre : resolveFrom env pre root = some (.baseRef nm b))
    (henv : lookupClass env b = some (t, u, cs)) :
    resolveFrom env (pre ++ s :: rest) root =
      resolveFrom env (s :: rest) (.group b t u cs) := by
  rw [resolveFrom_append, hpre]
  show resolveFrom env (s :: rest) (.baseRef nm b) = _
  simp [resolveFrom, deref, henv]

/-- Witness for C3 at concrete scenario 3: the path ENTRY/ROI/ebsd/indexing/
phaseID/ipfID/map/data with `indexing` delegating to the base class
NXms_ebsd resolves, through the indirection, to the same node as resolving
phaseID/ipfID/map/data from the base class's root directly. -/
theorem C3_indirection_witness :
    resolveFrom envC3 preC3 rootC3 = some (.baseRef "indexing" "NXms_ebsd") ∧
    lookupClass envC3 "NXms_ebsd" = some ("NXms_ebsd", "", [phaseNodeC3]) ∧
    resolveFrom envC3 (preC3 ++ postC3) rootC3 =
      resolveFrom envC3 postC3 ebsdRootC3 :=
  ⟨rfl, rfl,
   C3_indirection_resets_root envC3 rootC3 preC3 "phaseID" ["ipfID", "map", "data"]
     "indexing" "NXms_ebsd" "NXms_ebsd" "" [phaseNodeC3] rfl rfl⟩

/-- C7: conversion between any two sentinel unit categories is a
value-preserving no-op, conversion between a sentinel and a real physical
unit fails fatally in either direction, and a sentinel is
dimension-compatible with a unit exactly when that unit is itself
dimensionless (i.e. only with the sentinels themselves and each other). -/
theorem C7_sentinel_conversion (s t u w : NxUnit) (v : ℚ)
    (hs : IsSentinel s) (ht : IsSentinel t) (hu : u.dim ≠ Dim.nodim) :
    convQ v s t = .ok v ∧
    convQ v s u = .error (.incompatibleUnits s u) ∧
    convQ v u s = .error (.incompatibleUnits u s) ∧
    (s.dim = w.dim ↔ w.dim = Dim.nodim) := by
  have hsd : s.dim = Dim.nodim ∧ s.factor = 1 := by
    rcases hs with rfl | rfl | rfl <;> exact ⟨rfl, rfl⟩
  have htd : t.dim = Dim.nodim ∧ t.factor = 1 := by
    rcases ht with rfl | rfl | rfl <;> exact ⟨rfl, rfl⟩
  refine ⟨?_, ?_, ?_, ?_⟩
  · unfold convQ
    rw [hsd.1, htd.1, hsd.2, htd.2]
    simp
  · unfold convQ
    have hne : ¬(s.dim = u.dim) := fun he => hu (hsd.1 ▸ he.symm)
    simp [hne]
  · unfold convQ
    have hne : ¬(u.dim = s.dim) := fun he => hu (hsd.1 ▸ he)
    simp [hne]
  · rw [hsd.1]
    exact ⟨fun h => h.symm, fun h => h.symm⟩

/-- Witness for C7 at the concrete sentinels nx_unitless and
nx_dimensionless, the physical unit meter, the probe unit kilovolt and the
value 5. -/
theorem C7_sentinel_witness :
    IsSentinel nx_unitless ∧ IsSentinel nx_dimensionless ∧
    meter.dim ≠ Dim.nodim ∧
    convQ 5 nx_unitless nx_dimensionless = .ok 5 ∧
    convQ 5 nx_unitless meter = .error (.incompatibleUnits nx_unitless meter) ∧
    convQ 5 meter nx_unitless = .error (.incompatibleUnits meter nx_unitless) ∧
    (nx_unitless.dim = kilovolt.dim ↔ kilovolt.dim = Dim.nodim) := by
  have h := C7_sentinel_conversion nx_unitless nx_dimensionless meter kilovolt 5
    (Or.inl rfl) (Or.inr (Or.inl rfl)) (by decide)
  exact ⟨Or.inl rfl, Or.inr (Or.inl rfl), by decide, h.1, h.2.1, h.2.2.1, h.2.2.2⟩

/-- C1: applying a rule of any shape whose resolved source data is absent
from the source record writes nothing to the template, records exactly one
structured missing-source warning, returns successfully instead of
raising, and the run continues with the remaining entries from that
state. -/
theorem C1_missing_source_skips (tbl : MappingTable) (source : SourceRecord)
    (st : ApplyState) (d : Option Dtype) (r : MappingRule)
    (rest : List TableEntry) (h : missingOf tbl source r ≠ []) :
    applyEntry tbl source st (.mapEntry d r) =
      .ok ⟨st.template,
           st.warnings ++ [.missingSource (resolveTrg tbl r) (missingOf tbl source r)]⟩ ∧
    applyEntries tbl source (.mapEntry d r :: rest) st =
      applyEntries tbl source rest
        ⟨st.template,
         st.warnings ++ [.missingSource (resolveTrg tbl r) (missingOf tbl source r)]⟩ := by
  have hw : entryWrites tbl source (.mapEntry d r) =
      .ok ([], [.missingSource (resolveTrg tbl r) (missingOf tbl source r)]) := by
    cases hsel : ruleSrcSel r with
    | one sp =>
      have hpaths : resolveSrcPaths tbl r = [tbl.prefix_src ++ sp] := by
        simp [resolveSrcPaths, hsel]
      cases hl : slookup source (tbl.prefix_src ++ sp) with
      | some v =>
        exact absurd (by simp [missingOf, hpaths, hl]) h
      | none =>
        have hmiss : missingOf tbl source r = [tbl.prefix_src ++ sp] := by
          simp [missingOf, hpaths, hl]
        simp only [entryWrites, hsel, hl, hmiss]
    | many sps =>
      have hpaths : resolveSrcPaths tbl r =
          sps.map (fun p => tbl.prefix_src ++ p) := by
        simp [resolveSrcPaths, hsel]
      obtain ⟨p, hp⟩ := List.exists_mem_of_ne_nil _ h
      simp only [missingOf, hpaths, List.mem_filter] at hp
      have hpnone : slookup source p = none :=
        Option.isNone_iff_eq_none.mp hp.2
      have holist :
          olist ((sps.map (fun p => tbl.prefix_src ++ p)).map (slookup source)) =
            none :=
        olist_eq_none _ (List.mem_map.mpr ⟨p, hp.1, hpnone⟩)
      simp only [entryWrites, hsel, holist, missingOf, hpaths]
  refine ⟨?_, ?_⟩
  · unfold applyEntry
    rw [hw]
    rfl
  · exact applyEntries_cons_ok tbl source _ rest st _ (by unfold applyEntry; rw [hw]; rfl)

/-- Witness for C1 at a concrete plain map rule ("v", "val") with an empty
source record: the resolved source path "/x/val" is absent, the entry
writes nothing, records the one warning, and does not fail. -/
theorem C1_missing_source_witness :
    missingOf tblScenario1 [] (.caseTwo "v" (.one "val")) ≠ [] ∧
    applyEntry tblScenario1 [] ⟨[], []⟩ (.mapEntry none (.caseTwo "v" (.one "val"))) =
      .ok ⟨[], [.missingSource "/a/bv" ["/x/val"]]⟩ := by
  have h := C1_missing_source_skips tblScenario1 [] ⟨[], []⟩ none
    (.caseTwo "v" (.one "val")) [] (by decide)
  exact ⟨by decide, h.1⟩

/-- C2: last rule evaluated wins.  If a table's entries split as
es ++ e2 :: es2, entry e2 successfully writes the value v2 as its last
binding of the target path k, and no entry after e2 writes to k, then
after a successful `apply` the template holds v2 at k — the later rule's
result overrides any earlier rule's binding of the same path. -/
theorem C2_last_rule_wins (tbl : MappingTable) (source : SourceRecord)
    (t : Template) (st : ApplyState) (es es2 : List TableEntry)
    (e2 : TableEntry) (k : String) (v2 : Value)
    (ws : List (String × Value)) (warns : List Warning)
    (hentries : tbl.entries = es ++ e2 :: es2)
    (hw : entryWrites tbl source e2 = .ok (ws, warns))
    (hlast : lastBind ws k = some v2)
    (hrest : ∀ e ∈ es2, ∀ ws2 warns2,
      entryWrites tbl source e = .ok (ws2, warns2) →
      k ∉ ws2.map (fun kv => kv.1))
    (happ : applyTable tbl source t = .ok st) :
    tlookup st.template k = some v2 := by
  unfold applyTable at happ
  rw [hentries] at happ
  cases h1 : applyEntries tbl source es ⟨t, []⟩ with
  | error err =>
    rw [applyEntries_append_error tbl source es (e2 :: es2) ⟨t, []⟩ err h1] at happ
    exact absurd happ (by simp)
  | ok st1 =>
    rw [applyEntries_append_ok tbl source es (e2 :: es2) ⟨t, []⟩ st1 h1] at happ
    have h2 : applyEntry tbl source st1 e2 =
        .ok ⟨tputs st1.template ws, st1.warnings ++ warns⟩ := by
      unfold applyEntry; rw [hw]; rfl
    rw [applyEntries_cons_ok tbl source e2 es2 st1 _ h2] at happ
    have hpres := applyEntries_preserves tbl source es2 _ st k hrest happ
    rw [hpres]
    show tlookup (tputs st1.template ws) k = some v2
    rw [tlookup_tputs, hlast]

/-- Witness for C2 at a concrete table whose two entries both resolve to
the target path "/p/design": after `apply` the template holds the later
entry's value "b", not the earlier "a". -/
theorem C2_last_rule_witness :
    tblOverwrite.entries =
      [TableEntry.useEntry "design" (Value.str "a")] ++
        TableEntry.useEntry "design" (Value.str "b") :: [] ∧
    entryWrites tblOverwrite [] (.useEntry "design" (Value.str "b")) =
      .ok ([("/p/design", Value.str "b")], []) ∧
    lastBind [("/p/design", Value.str "b")] "/p/design" = some (Value.str "b") ∧
    applyTable tblOverwrite [] [] = .ok ⟨[("/p/design", Value.str "b")], []⟩ ∧
    tlookup [("/p/design", Value.str "b")] "/p/design" = some (Value.str "b") := by
  refine ⟨rfl, rfl, rfl, rfl, ?_⟩
  exact C2_last_rule_wins tblOverwrite [] []
    ⟨[("/p/design", Value.str "b")], []⟩
    [.useEntry "design" (Value.str "a")] [] (.useEntry "design" (Value.str "b"))
    "/p/design" (Value.str "b") [("/p/design", Value.str "b")] []
    rfl rfl rfl (by simp) rfl

/-- C6: join order and source-order independence.  First, `apply` depends
on the source record only through key lookup, so records with the same
lookup function — whatever their insertion order — produce identical
results.  Second, every join rule — any rule whose source-path component
is a list, of any of the shapes two to five, with or without a declared
dtype, over plain or unit-tagged values — writes the array whose i-th
element is the processed value of the i-th declared source path: declared
order is preserved, and elements are neither reordered nor deduplicated
(a path occurring twice contributes twice). -/
theorem C6_join_order :
    (∀ (tbl : MappingTable) (s1 s2 : SourceRecord) (t : Template),
      (∀ p, slookup s1 p = slookup s2 p) →
      applyTable tbl s1 t = applyTable tbl s2 t) ∧
    (∀ (tbl : MappingTable) (source : SourceRecord) (d : Option Dtype)
      (r : MappingRule) (sps : List String) (v : String → Value)
      (m : String → ℚ),
      ruleSrcSel r = .many sps →
      (∀ p ∈ sps, slookup source (tbl.prefix_src ++ p) = some (v p)) →
      (∀ p ∈ sps, elemMag d (ruleTrgUnit r) (ruleSrcUnit r) (v p) = .ok (m p)) →
      entryWrites tbl source (.mapEntry d r) =
        .ok (writesOf (resolveTrg tbl r) (.arr (sps.map m))
              (unitNameFor (ruleTrgUnit r) (ruleSrcUnit r) none), [])) := by
  constructor
  · intro tbl s1 s2 t h
    exact applyTable_congr tbl s1 s2 t h
  · intro tbl source d r sps v m hsel hv hm
    have holist :
        olist ((sps.map (fun p => tbl.prefix_src ++ p)).map (slookup source)) =
          some (sps.map v) := by
      rw [List.map_map]
      exact olist_map_some sps _ v (fun p hp => hv p hp)
    have helist :
        elist ((sps.map v).map (elemMag d (ruleTrgUnit r) (ruleSrcUnit r))) =
          .ok (sps.map m) := by
      rw [List.map_map]
      exact elist_map_ok sps _ m (fun p hp => hm p hp)
    simp only [entryWrites, hsel, holist, helist, Except.map]

/-- Witness for C6.  First conjunct: the two-key source records inserted in
opposite orders give identical `apply` results.  Second conjunct: the
scenario-2 case-five join — float64 dtype, millimeter-to-meter conversion —
writes [1, 2, 0] in the declared order x, y, z with its meter units
attribute. -/
theorem C6_join_order_witness :
    applyTable tblJoinW srcJoinW [] = applyTable tblJoinW srcJoinW2 [] ∧
    entryWrites tblScenario2 srcScenario2
        (.mapEntry (some .f8)
          (.caseFive "position" meter (.many ["x", "y", "z"]) millimeter)) =
      .ok ([("/entry/position", Value.arr [1, 2, 0]),
            ("/entry/position/@units", Value.str "meter")], []) := by
  constructor
  · refine C6_join_order.1 tblJoinW srcJoinW srcJoinW2 [] ?_
    intro p
    by_cases h1 : "/s/y" = p
    · subst h1; decide
    · by_cases h2 : "/s/x" = p
      · subst h2; decide
      · simp [srcJoinW, srcJoinW2, slookup, h1, h2]
  · refine C6_join_order.2 tblScenario2 srcScenario2 (some .f8)
      (.caseFive "position" meter (.many ["x", "y", "z"]) millimeter)
      ["x", "y", "z"] vJoinC6 mJoinC6 rfl (by decide) ?_
    intro p hp
    fin_cases hp <;>
      simp [vJoinC6, mJoinC6, elemMag, magFor, convQ, coerceQ, dtypeOk,
        intRange, ruleTrgUnit, ruleSrcUnit, meter, millimeter, except_ok_bind] <;>
      norm_num

/-- C9 counterexample: the strict append-only reading — an `apply` run
never changes the binding of a template path that was already present — is
false: a table whose rule targets an already-bound path rebinds it (last
write wins), as the concrete rebind fixture shows. -/
theorem C9_append_only_counterexample : ¬ appendOnlyClaim := by
  intro h
  have hc := h tblRebind [] tmplRebind ⟨[("/p/design", Value.str "b")], []⟩
    "/p/design" rfl (by decide)
  exact absurd hc (by decide)

/-- C9 amended: the output template's key set is append-only — a
successful `apply` never removes a template path: every path bound before
the call is still bound after it (although its value may be rebound by a
rule targeting it, per the last-rule-wins override). -/
theorem C9_keys_append_only (tbl : MappingTable) (source : SourceRecord)
    (t : Template) (st : ApplyState) (k : String)
    (happ : applyTable tbl source t = .ok st) (hk : k ∈ tkeys t) :
    k ∈ tkeys st.template := by
  unfold applyTable at happ
  exact applyEntries_keys_mono tbl source tbl.entries ⟨t, []⟩ st k happ hk

/-- Witness for the amended C9 at the rebind fixture: the pre-bound path
"/p/design" is still bound after `apply`. -/
theorem C9_keys_append_only_witness :
    applyTable tblRebind [] tmplRebind =
      .ok ⟨[("/p/design", Value.str "b")], []⟩ ∧
    "/p/design" ∈ tkeys tmplRebind ∧
    "/p/design" ∈ tkeys [("/p/design", Value.str "b")] :=
  ⟨rfl, by decide,
   C9_keys_append_only tblRebind [] tmplRebind
     ⟨[("/p/design", Value.str "b")], []⟩ "/p/design" rfl (by decide)⟩

end Pynx
